import Mathlib

/-!
Shallow embedding of the `DataStructures` repository (C++ templates over an
Arduino `byte` = 8-bit unsigned size type).

Modelling conventions, applied uniformly:
* `std::vector<T> _elements` is a `List T`; `_maxSize : byte` is a `Nat`
  (callers can only pass values `0..255`, theorems carry that bound where it
  matters).
* Every site where the C++ converts a `size_t` or `int` into a `byte`
  (e.g. `const byte sizeBefore = _elements.size()`, `size()`'s return value,
  the Stack's `size() - 1` index, the sort's `width *= 2` and
  `left += 2 * width`) is modelled with an explicit `% 256`.
* Loop counters of type `byte` that stay below the (`≤ 255`) element count are
  modelled as `Nat` recursion; theorems about whole containers carry an
  explicit `_elements.length ≤ 255` hypothesis, matching the spec's documented
  0–255 size scope.
* Fallible calls return `Bool × state` like the C++ (`true` = success);
  `List::insert`'s missing bounds check makes `vector::insert(begin()+index)`
  undefined behaviour for `index > size()`, so `_insert` returns
  `Option (Bool × state)` with `none` marking undefined behaviour.
* The change callback is observed abstractly: `_hasCallback` says whether a
  callback object is installed and `_notified` counts invocations of
  `_executeCallback`.
-/

set_option maxHeartbeats 1000000

/-- State of `LinearDataStructure<T>` (linear_data_structure.h): the protected
fields `_maxSize`, `_allowDuplicates`, `_elements`, plus the observer state of
the inherited `DataStructure` base (whether a callback is set, and how many
times it has fired). -/
structure LinearDataStructure (T : Type) where
  _maxSize : Nat
  _allowDuplicates : Bool
  _elements : List T
  _notified : Nat
  _hasCallback : Bool
deriving Repr, DecidableEq

variable {T : Type}

namespace LinearDataStructure

/-- The constructor: `_maxSize(0)`, `_allowDuplicates(true)`, empty vector,
no callback installed. -/
def initial (T : Type) : LinearDataStructure T :=
  ⟨0, true, [], 0, false⟩

/-- `DataStructure::_executeCallback`: invokes the callback if one is set
(observed as a counter increment). -/
def _executeCallback (s : LinearDataStructure T) : LinearDataStructure T :=
  if s._hasCallback then { s with _notified := s._notified + 1 } else s

/-- `DataStructure::setCallback` (observed abstractly). -/
def setCallback (s : LinearDataStructure T) : LinearDataStructure T :=
  { s with _hasCallback := true }

/-- `DataStructure::clearCallback`. -/
def clearCallback (s : LinearDataStructure T) : LinearDataStructure T :=
  { s with _hasCallback := false }

/-- `isFull`: false when `_maxSize == 0`, else `_elements.size() == _maxSize`. -/
def isFull (s : LinearDataStructure T) : Bool :=
  if s._maxSize = 0 then false else s._elements.length == s._maxSize

/-- `isEmpty`: `_elements.size() == 0`. -/
def isEmpty (s : LinearDataStructure T) : Bool :=
  s._elements.length == 0

/-- `size()`: returns the vector size as a `byte` (truncated to 8 bits). -/
def size (s : LinearDataStructure T) : Nat :=
  s._elements.length % 256

/-- `exists(element)`: linear scan for an equal element.  (The C++ name
`exists` is a Lean keyword, hence `existsElem`.) -/
def existsElem [DecidableEq T] (s : LinearDataStructure T) (element : T) : Bool :=
  decide (element ∈ s._elements)

/-- `get(index, element)`: fails for `index >= _elements.size()`, otherwise
yields `_elements.at(index)`.  The out-parameter is modelled as an `Option`
result (`none` = returned false, out-parameter untouched). -/
def get (s : LinearDataStructure T) (index : Nat) : Option T :=
  if h : index < s._elements.length then some (s._elements[index]) else none

/-- `_insert(index, element)`: rejects when full or when a duplicate is
disallowed; otherwise calls `vector::insert(begin() + index, element)` — which
is undefined behaviour (`none`) when `index` exceeds the current size, since
the code never bounds-checks `index` — then re-checks that the size grew (the
`sizeBefore` snapshot is a `byte`) and notifies on success. -/
def _insert [DecidableEq T] (s : LinearDataStructure T) (index : Nat) (element : T) :
    Option (Bool × LinearDataStructure T) :=
  if s.isFull then some (false, s)
  else if !s._allowDuplicates && s.existsElem element then some (false, s)
  else if s._elements.length < index then none
  else
    let sizeBefore := s._elements.length % 256
    let s1 := { s with _elements := s._elements.insertIdx index element }
    if s1._elements.length ≤ sizeBefore then some (false, s1)
    else some (true, s1._executeCallback)

/-- `_remove(index)`: fails for `index >= _elements.size()`; otherwise erases
at `index`, re-checks that the size shrank (against a `byte` snapshot) and
notifies on success. -/
def _remove (s : LinearDataStructure T) (index : Nat) : Bool × LinearDataStructure T :=
  if s._elements.length ≤ index then (false, s)
  else
    let sizeBefore := s._elements.length % 256
    let s1 := { s with _elements := s._elements.eraseIdx index }
    if sizeBefore ≤ s1._elements.length then (false, s1)
    else (true, s1._executeCallback)

/-- Inner loop of `_removeDuplicates`: starting from position `indexA + 1`,
erase every element equal to `elementA` (staying on the same index after an
erase, advancing otherwise).  Modelled structurally on the suffix that starts
at `indexA + 1`. -/
def innerSweep [DecidableEq T] (elementA : T) : List T → List T
  | [] => []
  | elementB :: rest =>
      if elementA ≠ elementB then elementB :: innerSweep elementA rest
      else innerSweep elementA rest

/-- Outer loop of `_removeDuplicates`: keep the element at `indexA`, sweep all
later equal elements away, move to the next position. -/
def _removeDuplicatesAux [DecidableEq T] : List T → List T
  | [] => []
  | elementA :: rest => elementA :: _removeDuplicatesAux (innerSweep elementA rest)
termination_by l => l.length
decreasing_by
  have h : ∀ (a : T) (l : List T), (innerSweep a l).length ≤ l.length := by
    intro a l
    induction l with
    | nil => simp [innerSweep]
    | cons b rest ih =>
        by_cases hab : a ≠ b <;> simp [innerSweep, hab] <;> omega
  simpa using Nat.lt_succ_of_le (h _ _)

/-- `_removeDuplicates`: returns immediately for fewer than two elements,
otherwise runs the quadratic sweep. -/
def _removeDuplicates [DecidableEq T] (xs : List T) : List T :=
  if xs.length < 2 then xs else _removeDuplicatesAux xs

/-- Eviction loop of `setMaxSize`: while the size exceeds `_maxSize`, call
`_remove` on the last index (`_elements.size() - 1`, passed as a `byte`). -/
def evictTail (s : LinearDataStructure T) : LinearDataStructure T :=
  if h : s._maxSize < s._elements.length then
    evictTail (s._remove ((s._elements.length - 1) % 256)).2
  else s
termination_by s._elements.length
decreasing_by
  have hlt : (s._elements.length - 1) % 256 < s._elements.length := by
    have := Nat.mod_le (s._elements.length - 1) 256
    omega
  have hrem : ∀ (t : LinearDataStructure T) (i : Nat), i < t._elements.length →
      ((t._remove i)).2._elements.length = t._elements.length - 1 := by
    intro t i hi
    have he := List.length_eraseIdx_add_one hi
    unfold _remove
    rw [if_neg (by omega)]
    dsimp only
    split
    · simp only
      omega
    · unfold _executeCallback
      split <;> simp only <;> omega
  rw [hrem s _ hlt]
  omega

/-- `setMaxSize(maxSize)`: store the bound; if it is zero return, otherwise
evict from the tail until the size fits. -/
def setMaxSize (s : LinearDataStructure T) (maxSize : Nat) : LinearDataStructure T :=
  let s1 := { s with _maxSize := maxSize }
  if s1._maxSize = 0 then s1 else evictTail s1

/-- `setAllowDuplicates(allowDuplicates)`: store the flag; when it becomes
false, immediately run `_removeDuplicates`. -/
def setAllowDuplicates [DecidableEq T] (s : LinearDataStructure T) (allowDuplicates : Bool) :
    LinearDataStructure T :=
  let s1 := { s with _allowDuplicates := allowDuplicates }
  if !allowDuplicates then { s1 with _elements := _removeDuplicates s1._elements } else s1

/-- `clear()`: snapshot the size as a `byte`, clear the vector, verify it is
empty, and notify exactly when the `byte` snapshot differs from the new
(zero) size. -/
def clear (s : LinearDataStructure T) : Bool × LinearDataStructure T :=
  let sizeBefore := s._elements.length % 256
  let s1 := { s with _elements := ([] : List T) }
  if !s1.isEmpty then (false, s1)
  else if s1._elements.length == sizeBefore then (true, s1)
  else (true, s1._executeCallback)

/-- Loop body shared by `extend` and `copy`: for each element read out of the
source, `_insert(this->size(), element)`.  The insertion index `size()` is at
most the current length, so the `none` (undefined behaviour) case of
`_insert` cannot occur; it is mapped to an identity step. -/
def extendLoop [DecidableEq T] (s : LinearDataStructure T) : List T → LinearDataStructure T
  | [] => s
  | element :: rest =>
      match s._insert s.size element with
      | some (_, s1) => extendLoop s1 rest
      | none => extendLoop s rest

/-- `extend(other)`: fail outright if a non-zero `_maxSize` would be exceeded
by `_elements.size() + other.size()`; otherwise append the elements that
`get` yields for indices `0 .. other.size()-1`, one by one, and return true. -/
def extend [DecidableEq T] (s other : LinearDataStructure T) :
    Bool × LinearDataStructure T :=
  if 0 < s._maxSize ∧ s._maxSize < s._elements.length + other.size then (false, s)
  else (true, extendLoop s (other._elements.take other.size))

/-- `copy(other)`: fail if a non-zero `_maxSize` is smaller than
`other.size()`; otherwise `clear()` then append `other`'s elements. -/
def copy [DecidableEq T] (s other : LinearDataStructure T) :
    Bool × LinearDataStructure T :=
  if 0 < s._maxSize ∧ s._maxSize < other.size then (false, s)
  else (true, extendLoop (s.clear).2 (other._elements.take other.size))

end LinearDataStructure

namespace ListC

open LinearDataStructure

/-- `List::append(element)` = `_insert(this->size(), element)`. -/
def append [DecidableEq T] (s : LinearDataStructure T) (element : T) :
    Option (Bool × LinearDataStructure T) :=
  s._insert s.size element

/-- `List::insert(index, element)` = `_insert(index, element)`. -/
def insert [DecidableEq T] (s : LinearDataStructure T) (index : Nat) (element : T) :
    Option (Bool × LinearDataStructure T) :=
  s._insert index element

/-- `List::remove(index)` = `_remove(index)`. -/
def remove (s : LinearDataStructure T) (index : Nat) : Bool × LinearDataStructure T :=
  s._remove index

/-- The rebuild loop of `List::reverse`: `for (byte i = size; i > 0; i--)`
read `get(i-1)` and push it onto the new vector.  A failing `get` (impossible
for `i ≤ size ≤ length`) contributes nothing. -/
def reverseLoop (s : LinearDataStructure T) : Nat → List T → List T
  | 0, reversed => reversed
  | i + 1, reversed =>
      match s.get i with
      | some element => reverseLoop s i (reversed ++ [element])
      | none => reverseLoop s i reversed

/-- `List::reverse()`: no-op success below two elements (the source has an
evident missing `;` after this `return(true)`); otherwise replace `_elements`
with the rebuilt reversed vector.  No callback is invoked on this path. -/
def reverse (s : LinearDataStructure T) : Bool × LinearDataStructure T :=
  if s.size < 2 then (true, s)
  else (true, { s with _elements := reverseLoop s s.size [] })

/-- The merge loops of `List::sort`, structurally recursive on a fuel that
counts the remaining elements (every loop iteration consumes exactly one
element, so the fuel chosen in `mergeRuns` can never run out): drain two
runs, preferring the left run while `_elements[i] <= _elements[j]`, then
drain whichever run remains. -/
def mergeRunsAux [LinearOrder T] : Nat → List T → List T → List T
  | 0, xs, ys => xs ++ ys
  | _ + 1, [], ys => ys
  | _ + 1, x :: xs, [] => x :: xs
  | fuel + 1, x :: xs, y :: ys =>
      if x ≤ y then x :: mergeRunsAux fuel xs (y :: ys)
      else y :: mergeRunsAux fuel (x :: xs) ys

/-- The merge of two runs, with fuel covering both runs in full. -/
def mergeRuns [LinearOrder T] (xs ys : List T) : List T :=
  mergeRunsAux (xs.length + ys.length) xs ys

/-- The half-open index range `[i, j)` of a vector, as read by the merge
loops. -/
def slice (xs : List T) (i j : Nat) : List T :=
  (xs.drop i).take (j - i)

/-- One block of a merge pass: fill `buffer` by merging `[left, mid)` with
`[mid, right)`, then copy `buffer` back over positions
`left .. left + buffer.size() - 1`. -/
def mergeAt [LinearOrder T] (xs : List T) (left mid right : Nat) : List T :=
  let buffer := mergeRuns (slice xs left mid) (slice xs mid right)
  xs.take left ++ buffer ++ xs.drop (left + buffer.length)

/-- Inner `for (byte left = 0; left < size; left += 2 * width)` loop of
`List::sort`: `mid`/`right` are clamped with `min` (computed in `int`, always
in range), while the `byte` increment `left += 2 * width` wraps modulo 256.
Fuel makes the possible non-termination of the `byte` loop explicit; `none`
means the fuel ran out. -/
def sortPassAux [LinearOrder T] : Nat → Nat → Nat → Nat → List T → Option (List T)
  | 0, _, _, _, _ => none
  | fuel + 1, width, left, size, xs =>
      if left < size then
        sortPassAux fuel width ((left + 2 * width) % 256) size
          (mergeAt xs left (min (left + width) size) (min (left + 2 * width) size))
      else some xs

/-- Outer `for (byte width = 1; width < size; width *= 2)` loop of
`List::sort`; the `byte` doubling `width *= 2` wraps modulo 256. -/
def sortWidthAux [LinearOrder T] : Nat → Nat → Nat → List T → Option (List T)
  | 0, _, _, _ => none
  | fuel + 1, width, size, xs =>
      if width < size then
        match sortPassAux fuel width 0 size xs with
        | none => none
        | some ys => sortWidthAux fuel ((2 * width) % 256) size ys
      else some xs

/-- `List::sort()`: snapshot `const byte size = this->size()`; no-op success
below two elements, otherwise run the bottom-up merge passes and notify once.
Modelled from the spec: the facades inherit from a legacy
`LinearDataStructure.h` (not among the sources) whose function-pointer
`_onChangeCallback` plays the role of the notifier; per the spec it is the
single change-notification capability, invoked here once after a successful
sort, which `_executeCallback` models. -/
def sort [LinearOrder T] (fuel : Nat) (s : LinearDataStructure T) :
    Option (Bool × LinearDataStructure T) :=
  if s.size < 2 then some (true, s)
  else
    match sortWidthAux fuel 1 s.size s._elements with
    | none => none
    | some ys => some (true, ({ s with _elements := ys })._executeCallback)

end ListC

namespace QueueC

open LinearDataStructure

/-- `Queue::add(element)` = `_insert(this->size(), element)`. -/
def add [DecidableEq T] (s : LinearDataStructure T) (element : T) :
    Option (Bool × LinearDataStructure T) :=
  s._insert s.size element

/-- `Queue::peek(element)` = `get(0, element)`. -/
def peek (s : LinearDataStructure T) : Option T :=
  s.get 0

/-- `Queue::pop()` = `_remove(0)`. -/
def pop (s : LinearDataStructure T) : Bool × LinearDataStructure T :=
  s._remove 0

end QueueC

namespace StackC

open LinearDataStructure

/-- `Stack::add(element)` = `_insert(this->size(), element)`. -/
def add [DecidableEq T] (s : LinearDataStructure T) (element : T) :
    Option (Bool × LinearDataStructure T) :=
  s._insert s.size element

/-- `Stack::peek(element)` = `get(this->size() - 1, element)`: the `int`
difference `size() - 1` is converted to the `byte` parameter, i.e. taken
modulo 256 (an empty stack yields index 255). -/
def peek (s : LinearDataStructure T) : Option T :=
  s.get ((s.size + 255) % 256)

/-- `Stack::pop()` = `_remove(this->size() - 1)`, with the same `byte`
conversion of the index as `peek`. -/
def pop (s : LinearDataStructure T) : Bool × LinearDataStructure T :=
  s._remove ((s.size + 255) % 256)

end StackC

/-- Specification-side description of the deduplication sweep (§3/§8 of the
spec): keep each value's first occurrence, drop every later equal element,
preserve the order of what remains.  Used to state what `_removeDuplicates`
computes. -/
def dedupFirst [DecidableEq T] : List T → List T
  | [] => []
  | a :: rest => a :: dedupFirst (rest.filter (fun b => decide (a ≠ b)))
termination_by l => l.length
decreasing_by
  simpa using Nat.lt_succ_of_le (List.length_filter_le _ _)

/-- The container invariants of the spec's data model (§3): a non-zero
capacity bounds the element count, and with duplicates disallowed the stored
elements are pairwise distinct. -/
def ContainerInv (s : LinearDataStructure T) : Prop :=
  (s._maxSize ≠ 0 → s._elements.length ≤ s._maxSize) ∧
  (s._allowDuplicates = false → s._elements.Nodup)

/-- The states a container reaches from a fresh instance through the public
operations.  `byte` parameters are reduced modulo 256 at the call boundary
(the implicit C++ conversion).  An operation with a `Bool` result reaches its
post-state whether it reports success or failure; `insert` and the facade
`add`s only transition when the call is defined (not the
out-of-bounds undefined-behaviour case), and `sort` when it terminates. -/
inductive Reachable [DecidableEq T] [LinearOrder T] : LinearDataStructure T → Prop
  | init : Reachable (LinearDataStructure.initial T)
  | insertOp {s s' : LinearDataStructure T} {b : Bool} (i : Nat) (e : T) :
      Reachable s → ListC.insert s (i % 256) e = some (b, s') → Reachable s'
  | removeOp {s : LinearDataStructure T} (i : Nat) :
      Reachable s → Reachable (ListC.remove s (i % 256)).2
  | clearOp {s : LinearDataStructure T} : Reachable s → Reachable (s.clear).2
  | setMaxSizeOp {s : LinearDataStructure T} (m : Nat) :
      Reachable s → Reachable (s.setMaxSize (m % 256))
  | setAllowDuplicatesOp {s : LinearDataStructure T} (b : Bool) :
      Reachable s → Reachable (s.setAllowDuplicates b)
  | extendOp {s : LinearDataStructure T} (o : LinearDataStructure T) :
      Reachable s → Reachable (s.extend o).2
  | copyOp {s : LinearDataStructure T} (o : LinearDataStructure T) :
      Reachable s → Reachable (s.copy o).2
  | sortOp {s s' : LinearDataStructure T} {b : Bool} (fuel : Nat) :
      Reachable s → ListC.sort fuel s = some (b, s') → Reachable s'
  | reverseOp {s : LinearDataStructure T} : Reachable s → Reachable (ListC.reverse s).2
  | queueAddOp {s s' : LinearDataStructure T} {b : Bool} (e : T) :
      Reachable s → QueueC.add s e = some (b, s') → Reachable s'
  | queuePopOp {s : LinearDataStructure T} : Reachable s → Reachable (QueueC.pop s).2
  | stackAddOp {s s' : LinearDataStructure T} {b : Bool} (e : T) :
      Reachable s → StackC.add s e = some (b, s') → Reachable s'
  | stackPopOp {s : LinearDataStructure T} : Reachable s → Reachable (StackC.pop s).2
  | setCallbackOp {s : LinearDataStructure T} : Reachable s → Reachable s.setCallback
  | clearCallbackOp {s : LinearDataStructure T} : Reachable s → Reachable s.clearCallback

namespace LinearDataStructure

theorem executeCallback_elements (s : LinearDataStructure T) :
    s._executeCallback._elements = s._elements := by
  unfold _executeCallback
  split <;> rfl

theorem executeCallback_maxSize (s : LinearDataStructure T) :
    s._executeCallback._maxSize = s._maxSize := by
  unfold _executeCallback
  split <;> rfl

theorem executeCallback_allowDuplicates (s : LinearDataStructure T) :
    s._executeCallback._allowDuplicates = s._allowDuplicates := by
  unfold _executeCallback
  split <;> rfl

theorem insertIdx_perm (a : T) :
    ∀ (n : Nat) (l : List T), n ≤ l.length → List.Perm (l.insertIdx n a) (a :: l)
  | 0, l, _ => by rw [List.insertIdx_zero]
  | n + 1, [], h => by simp at h
  | n + 1, b :: t, h => by
      rw [List.insertIdx_succ_cons]
      exact ((insertIdx_perm a n t (by simpa using h)).cons b).trans (List.Perm.swap a b t)

/-- Success case of `_insert`: not full, not a rejected duplicate, index in
bounds.  The element lands at `index`, and the callback fires once if set. -/
theorem insert_ok [DecidableEq T] (s : LinearDataStructure T) (i : Nat) (e : T)
    (hfull : s.isFull = false)
    (hdup : s._allowDuplicates = true ∨ e ∉ s._elements)
    (hi : i ≤ s._elements.length) :
    s._insert i e = some (true,
      { s with _elements := s._elements.insertIdx i e,
               _notified := s._notified + (if s._hasCallback then 1 else 0) }) := by
  have hguard : (!s._allowDuplicates && s.existsElem e) = false := by
    rcases hdup with h | h
    · simp [h]
    · simp [existsElem, h]
  have hlen : (s._elements.insertIdx i e).length = s._elements.length + 1 :=
    List.length_insertIdx i s._elements hi
  have hmod : s._elements.length % 256 ≤ s._elements.length := Nat.mod_le _ _
  unfold _insert
  rw [hfull, hguard]
  simp only [Bool.false_eq_true, if_false, if_neg (by omega : ¬ s._elements.length < i)]
  rw [if_neg (by omega : ¬ (s._elements.insertIdx i e).length ≤ s._elements.length % 256)]
  unfold _executeCallback
  split <;> rename_i hcb <;> simp_all

/-- `_remove` on an in-range index of a container of in-scope size removes
exactly that element and notifies once if a callback is set. -/
theorem remove_ok (s : LinearDataStructure T) (i : Nat)
    (hlen : s._elements.length ≤ 255) (hi : i < s._elements.length) :
    s._remove i = (true,
      { s with _elements := s._elements.eraseIdx i,
               _notified := s._notified + (if s._hasCallback then 1 else 0) }) := by
  have he := List.length_eraseIdx_add_one hi
  have hmod : s._elements.length % 256 = s._elements.length := Nat.mod_eq_of_lt (by omega)
  unfold _remove
  rw [if_neg (by omega)]
  dsimp only
  rw [if_neg (show ¬ s._elements.length % 256 ≤ (s._elements.eraseIdx i).length by omega)]
  unfold _executeCallback
  split <;> rename_i hcb <;> simp_all

/-- `_remove` with an out-of-range index fails and leaves the state as is. -/
theorem remove_oob (s : LinearDataStructure T) (i : Nat)
    (hi : s._elements.length ≤ i) : s._remove i = (false, s) := by
  unfold _remove
  rw [if_pos hi]

end LinearDataStructure

/-- Claim C4 (code bug): the engine's `_insert` never bounds-checks `index`,
so `List::insert(index, element)` with `index > count` reaches
`vector::insert(_elements.begin() + index, element)` past the end — undefined
behaviour (`none` in the model) rather than the documented clean `false`;
`index == count` (here `0` on an empty list) is accepted as an append. -/
theorem c4_insert_past_end_is_undefined :
    ListC.insert (LinearDataStructure.initial Nat) 5 7 = none ∧
    ListC.insert (LinearDataStructure.initial Nat) 0 7 =
      some (true, ⟨0, true, [7], 0, false⟩) := by
  constructor <;> rfl

/-- Claim C10: on an empty stack the `int` expression `size() - 1` is `-1`,
which the `byte` parameter conversion wraps to 255; the bounds checks of
`get`/`_remove` reject index 255 against count 0, so `pop` returns false with
the state untouched and `peek` fails without writing its out-parameter. -/
theorem c10_empty_stack_pop_peek (T : Type) (m n : Nat) (d c : Bool) :
    StackC.pop (⟨m, d, [], n, c⟩ : LinearDataStructure T) = (false, ⟨m, d, [], n, c⟩) ∧
    StackC.peek (⟨m, d, [], n, c⟩ : LinearDataStructure T) = none ∧
    ((⟨m, d, [], n, c⟩ : LinearDataStructure T).size + 255) % 256 = 255 := by
  refine ⟨?_, ?_, ?_⟩ <;>
    simp [StackC.pop, StackC.peek, LinearDataStructure.size, LinearDataStructure._remove,
      LinearDataStructure.get]

/-- Claim C8 (code bug: `return(true)` on the short path of `List::reverse`
lacks its semicolon, so List.h does not compile; this evaluates the evident
intended code): reversing `[1,2,3]` yields `[3,2,1]` and returns true, and a
list with fewer than two elements is returned unchanged with success. -/
theorem c8_reverse_intended_behaviour :
    ListC.reverse (⟨0, true, [1, 2, 3], 0, false⟩ : LinearDataStructure Nat) =
      (true, ⟨0, true, [3, 2, 1], 0, false⟩) ∧
    ListC.reverse (⟨0, true, [7], 0, false⟩ : LinearDataStructure Nat) =
      (true, ⟨0, true, [7], 0, false⟩) ∧
    ListC.reverse (LinearDataStructure.initial Nat) =
      (true, LinearDataStructure.initial Nat) := by
  refine ⟨?_, ?_, ?_⟩ <;> rfl

/-- The spec's concrete sort example, in range: with ample fuel the modelled
`List::sort` turns `[5,3,3,1,4]` into `[1,3,3,4,5]` and reports success. -/
theorem sort_example_in_range :
    ListC.sort 32 (⟨0, true, [5, 3, 3, 1, 4], 0, false⟩ : LinearDataStructure Nat) =
      some (true, ⟨0, true, [1, 3, 3, 4, 5], 0, false⟩) := by
  rfl

theorem sortPassAux_width128_none [LinearOrder T] :
    ∀ (fuel : Nat) (xs : List T), ListC.sortPassAux fuel 128 0 129 xs = none := by
  intro fuel
  induction fuel with
  | zero => intro xs; rfl
  | succ f ih =>
      intro xs
      show ListC.sortPassAux (f + 1) 128 0 129 xs = none
      rw [ListC.sortPassAux]
      rw [if_pos (by omega : (0 : Nat) < 129)]
      have h0 : (0 + 2 * 128) % 256 = 0 := by norm_num
      rw [h0]
      exact ih _

theorem sortWidthAux_pow_none [LinearOrder T] :
    ∀ (fuel k : Nat), k ≤ 7 → ∀ (xs : List T),
      ListC.sortWidthAux fuel (2 ^ k) 129 xs = none := by
  intro fuel
  induction fuel with
  | zero => intro k _ xs; rfl
  | succ f ih =>
      intro k hk xs
      by_cases h7 : k = 7
      · subst h7
        show ListC.sortWidthAux (f + 1) 128 129 xs = none
        rw [ListC.sortWidthAux]
        rw [if_pos (by omega : (128 : Nat) < 129)]
        rw [sortPassAux_width128_none]
      · have hlt : (2 : Nat) ^ k < 129 := by
          calc (2 : Nat) ^ k ≤ 2 ^ 6 := Nat.pow_le_pow_right (by omega) (by omega)
          _ < 129 := by norm_num
        rw [ListC.sortWidthAux]
        rw [if_pos hlt]
        cases hp : ListC.sortPassAux f (2 ^ k) 0 129 xs with
        | none => rfl
        | some ys =>
            have hdouble : (2 * 2 ^ k) % 256 = 2 ^ (k + 1) := by
              have : (2 : Nat) * 2 ^ k = 2 ^ (k + 1) := by rw [Nat.pow_succ]; ring
              rw [this]
              exact Nat.mod_eq_of_lt (by
                calc (2 : Nat) ^ (k + 1) ≤ 2 ^ 7 := Nat.pow_le_pow_right (by omega) (by omega)
                _ < 256 := by norm_num)
            rw [hdouble]
            exact ih (k + 1) (by omega) ys

/-- Claim C2 (code bug): `List::sort` declares `byte width` and doubles it
each pass, so once the element count exceeds 128 the pass at `width == 128`
advances `left` by `(2 * 128) mod 256 = 0` forever and `sort()` never
returns.  In the fuelled model, sorting a 129-element list yields `none` for
every fuel. -/
theorem c2_sort_never_returns_on_129_elements :
    ∀ fuel : Nat,
      ListC.sort fuel (⟨0, true, List.range 129, 0, false⟩ : LinearDataStructure Nat)
        = none := by
  intro fuel
  have hsize : (⟨0, true, List.range 129, 0, false⟩ : LinearDataStructure Nat).size = 129 := by
    simp [LinearDataStructure.size]
  unfold ListC.sort
  rw [hsize]
  rw [if_neg (by omega : ¬ (129 : Nat) < 2)]
  have h := sortWidthAux_pow_none (T := Nat) fuel 0 (by omega) (List.range 129)
  norm_num at h
  rw [h]


theorem innerSweep_eq_filter [DecidableEq T] (a : T) (l : List T) :
    LinearDataStructure.innerSweep a l = l.filter (fun b => decide (a ≠ b)) := by
  induction l with
  | nil => rfl
  | cons b t ih =>
      by_cases h : a ≠ b <;>
        simp [LinearDataStructure.innerSweep, h, ih, List.filter_cons]

theorem dedupFirst_nil [DecidableEq T] : dedupFirst ([] : List T) = [] := by
  simp [dedupFirst]

theorem dedupFirst_cons [DecidableEq T] (a : T) (t : List T) :
    dedupFirst (a :: t) = a :: dedupFirst (t.filter (fun b => decide (a ≠ b))) := by
  rw [dedupFirst]

theorem removeDuplicatesAux_eq_dedupFirst [DecidableEq T] (l : List T) :
    LinearDataStructure._removeDuplicatesAux l = dedupFirst l := by
  suffices h : ∀ (n : Nat) (l : List T), l.length = n →
      LinearDataStructure._removeDuplicatesAux l = dedupFirst l from h l.length l rfl
  intro n
  induction n using Nat.strong_induction_on with
  | _ n ih =>
      intro l hn
      cases l with
      | nil => simp [LinearDataStructure._removeDuplicatesAux, dedupFirst_nil]
      | cons a t =>
          rw [LinearDataStructure._removeDuplicatesAux, dedupFirst_cons, innerSweep_eq_filter]
          have hlt : (t.filter (fun b => decide (a ≠ b))).length < n := by
            have := List.length_filter_le (fun b => decide (a ≠ b)) t
            simp at hn
            omega
          rw [ih _ hlt _ rfl]

theorem dedupFirst_short [DecidableEq T] (l : List T) (h : l.length < 2) :
    dedupFirst l = l := by
  match l, h with
  | [], _ => exact dedupFirst_nil
  | [a], _ => rw [dedupFirst_cons]; simp [dedupFirst_nil]

theorem removeDuplicates_eq_dedupFirst [DecidableEq T] (l : List T) :
    LinearDataStructure._removeDuplicates l = dedupFirst l := by
  unfold LinearDataStructure._removeDuplicates
  split
  · rw [dedupFirst_short _ (by omega)]
  · exact removeDuplicatesAux_eq_dedupFirst l

theorem dedupFirst_sublist [DecidableEq T] (l : List T) :
    List.Sublist (dedupFirst l) l := by
  suffices h : ∀ (n : Nat) (l : List T), l.length = n →
      List.Sublist (dedupFirst l) l from h l.length l rfl
  intro n
  induction n using Nat.strong_induction_on with
  | _ n ih =>
      intro l hn
      cases l with
      | nil => simp [dedupFirst_nil]
      | cons a t =>
          rw [dedupFirst_cons]
          have hlt : (t.filter (fun b => decide (a ≠ b))).length < n := by
            have := List.length_filter_le (fun b => decide (a ≠ b)) t
            simp at hn
            omega
          exact List.Sublist.cons₂ a
            ((ih _ hlt _ rfl).trans (List.filter_sublist t))

theorem mem_dedupFirst [DecidableEq T] (x : T) (l : List T) :
    x ∈ dedupFirst l ↔ x ∈ l := by
  suffices h : ∀ (n : Nat) (l : List T), l.length = n →
      (x ∈ dedupFirst l ↔ x ∈ l) from h l.length l rfl
  intro n
  induction n using Nat.strong_induction_on with
  | _ n ih =>
      intro l hn
      cases l with
      | nil => simp [dedupFirst_nil]
      | cons a t =>
          rw [dedupFirst_cons]
          have hlt : (t.filter (fun b => decide (a ≠ b))).length < n := by
            have := List.length_filter_le (fun b => decide (a ≠ b)) t
            simp at hn
            omega
          by_cases hx : x = a
          · subst hx; simp
          · simp only [List.mem_cons, hx, false_or]
            rw [ih _ hlt _ rfl]
            constructor
            · intro hmem
              exact (List.mem_filter.mp hmem).1
            · intro hmem
              refine List.mem_filter.mpr ⟨hmem, ?_⟩
              simp only [decide_eq_true_eq]
              exact fun h => hx h.symm

theorem dedupFirst_nodup [DecidableEq T] (l : List T) :
    (dedupFirst l).Nodup := by
  suffices h : ∀ (n : Nat) (l : List T), l.length = n →
      (dedupFirst l).Nodup from h l.length l rfl
  intro n
  induction n using Nat.strong_induction_on with
  | _ n ih =>
      intro l hn
      cases l with
      | nil => simp [dedupFirst_nil]
      | cons a t =>
          rw [dedupFirst_cons]
          have hlt : (t.filter (fun b => decide (a ≠ b))).length < n := by
            have := List.length_filter_le (fun b => decide (a ≠ b)) t
            simp at hn
            omega
          refine List.nodup_cons.mpr ⟨?_, ih _ hlt _ rfl⟩
          rw [mem_dedupFirst]
          simp

/-- Claim C6: `setAllowDuplicates(false)` immediately replaces the sequence
with its first-occurrence deduplication — a duplicate-free subsequence of the
original containing the same values in their original relative order — and in
particular turns `[3,1,3,2,1]` into `[3,1,2]`. -/
theorem c6_setAllowDuplicates_false_dedups [DecidableEq T] (s : LinearDataStructure T)
    (hlen : s._elements.length ≤ 255) :
    (s.setAllowDuplicates false)._elements = dedupFirst s._elements ∧
    (s.setAllowDuplicates false)._elements.Nodup ∧
    List.Sublist (s.setAllowDuplicates false)._elements s._elements ∧
    (s.setAllowDuplicates false)._allowDuplicates = false ∧
    (LinearDataStructure.setAllowDuplicates
        (⟨0, true, [3, 1, 3, 2, 1], 0, false⟩ : LinearDataStructure Nat) false)._elements
      = [3, 1, 2] := by
  have helts : (s.setAllowDuplicates false)._elements =
      LinearDataStructure._removeDuplicates s._elements := rfl
  refine ⟨?_, ?_, ?_, rfl, ?_⟩
  · rw [helts, removeDuplicates_eq_dedupFirst]
  · rw [helts, removeDuplicates_eq_dedupFirst]
    exact dedupFirst_nodup _
  · rw [helts, removeDuplicates_eq_dedupFirst]
    exact dedupFirst_sublist _
  · show LinearDataStructure._removeDuplicates [3, 1, 3, 2, 1] = [3, 1, 2]
    rw [removeDuplicates_eq_dedupFirst]
    simp [dedupFirst_cons, dedupFirst_nil, List.filter]

/-- Witness for C6 at a concrete container. -/
theorem c6_witness :
    ((⟨0, true, [4, 4, 9], 2, true⟩ : LinearDataStructure Nat)._elements.length ≤ 255) ∧
    ((LinearDataStructure.setAllowDuplicates
        (⟨0, true, [4, 4, 9], 2, true⟩ : LinearDataStructure Nat) false)._elements
          = dedupFirst [4, 4, 9] ∧
      (LinearDataStructure.setAllowDuplicates
        (⟨0, true, [4, 4, 9], 2, true⟩ : LinearDataStructure Nat) false)._elements.Nodup ∧
      List.Sublist (LinearDataStructure.setAllowDuplicates
        (⟨0, true, [4, 4, 9], 2, true⟩ : LinearDataStructure Nat) false)._elements [4, 4, 9] ∧
      (LinearDataStructure.setAllowDuplicates
        (⟨0, true, [4, 4, 9], 2, true⟩ : LinearDataStructure Nat) false)._allowDuplicates
          = false ∧
      (LinearDataStructure.setAllowDuplicates
        (⟨0, true, [3, 1, 3, 2, 1], 0, false⟩ : LinearDataStructure Nat) false)._elements
          = [3, 1, 2]) :=
  ⟨by norm_num, c6_setAllowDuplicates_false_dedups _ (by norm_num)⟩

theorem evictTail_take :
    ∀ (n : Nat) (s : LinearDataStructure T), s._elements.length = n →
      s._elements.length ≤ 255 → 0 < s._maxSize →
      LinearDataStructure.evictTail s =
        { s with
            _elements := s._elements.take s._maxSize,
            _notified := s._notified +
              (if s._hasCallback then s._elements.length - s._maxSize else 0) } := by
  intro n
  induction n using Nat.strong_induction_on with
  | _ n ih =>
      rintro ⟨m0, d0, l0, n0, c0⟩ hn hlen hm
      replace hn : l0.length = n := hn
      replace hlen : l0.length ≤ 255 := hlen
      replace hm : 0 < m0 := hm
      by_cases hgt : m0 < l0.length
      · have he := List.length_eraseIdx_add_one
          (show l0.length - 1 < l0.length by omega)
        rw [LinearDataStructure.evictTail]
        rw [dif_pos (show (⟨m0, d0, l0, n0, c0⟩ :
          LinearDataStructure T)._maxSize < l0.length from hgt)]
        have hidx : (l0.length - 1) % 256 = l0.length - 1 := Nat.mod_eq_of_lt (by omega)
        show LinearDataStructure.evictTail
          ((LinearDataStructure._remove ⟨m0, d0, l0, n0, c0⟩ ((l0.length - 1) % 256))).2 = _
        rw [hidx]
        rw [LinearDataStructure.remove_ok _ _ hlen
          (show l0.length - 1 < l0.length by omega)]
        show LinearDataStructure.evictTail
          ⟨m0, d0, l0.eraseIdx (l0.length - 1), n0 + (if c0 then 1 else 0), c0⟩ = _
        rw [ih (n - 1) (by omega)
          ⟨m0, d0, l0.eraseIdx (l0.length - 1), n0 + (if c0 then 1 else 0), c0⟩
          (show (l0.eraseIdx (l0.length - 1)).length = n - 1 by omega)
          (show (l0.eraseIdx (l0.length - 1)).length ≤ 255 by omega)
          (show 0 < m0 from hm)]
        have htake : (l0.eraseIdx (l0.length - 1)).take m0 = l0.take m0 := by
          rw [List.eraseIdx_eq_take_drop_succ]
          rw [show l0.length - 1 + 1 = l0.length by omega]
          rw [List.drop_length, List.append_nil, List.take_take]
          rw [Nat.min_eq_left (by omega)]
        simp only [LinearDataStructure.mk.injEq, htake, true_and, and_true]
        cases c0 <;> simp <;> omega
      · rw [LinearDataStructure.evictTail]
        rw [dif_neg (show ¬ (⟨m0, d0, l0, n0, c0⟩ :
          LinearDataStructure T)._maxSize < l0.length from hgt)]
        have htake2 : l0.take m0 = l0 := List.take_of_length_le (by omega)
        simp only [LinearDataStructure.mk.injEq, htake2, true_and, and_true]
        cases c0 <;> simp <;> omega

/-- Claim C7: `setCapacity(0)` just clears the bound; `setCapacity(n)` with
`n > 0` stores the bound and evicts trailing elements one `removeAt` at a
time (each notifying if a callback is set) until the count fits, leaving the
first `n` elements; `setCapacity(2)` on `[1,2,3,4]` leaves `[1,2]` and the
container reports full. -/
theorem c7_setMaxSize_behaviour (s : LinearDataStructure T) (m : Nat)
    (hlen : s._elements.length ≤ 255) (hm : m ≤ 255) :
    s.setMaxSize 0 = { s with _maxSize := 0 } ∧
    (0 < m → s.setMaxSize m =
      { s with _maxSize := m,
               _elements := s._elements.take m,
               _notified := s._notified +
                 (if s._hasCallback then s._elements.length - m else 0) }) ∧
    LinearDataStructure.setMaxSize
        (⟨0, true, [1, 2, 3, 4], 0, false⟩ : LinearDataStructure Nat) 2
      = ⟨2, true, [1, 2], 0, false⟩ ∧
    (⟨2, true, [1, 2], 0, false⟩ : LinearDataStructure Nat).isFull = true := by
  refine ⟨rfl, ?_, ?_, rfl⟩
  · intro hm0
    unfold LinearDataStructure.setMaxSize
    dsimp only
    rw [if_neg (by omega)]
    rw [evictTail_take s._elements.length { s with _maxSize := m } rfl hlen
      (show 0 < m from hm0)]
  · show LinearDataStructure.setMaxSize
      (⟨0, true, [1, 2, 3, 4], 0, false⟩ : LinearDataStructure Nat) 2 = _
    unfold LinearDataStructure.setMaxSize
    dsimp only
    rw [if_neg (by omega)]
    rw [evictTail_take 4 ⟨2, true, [1, 2, 3, 4], 0, false⟩ rfl (by decide) (by decide)]
    rfl

/-- Witness for C7 at a concrete container. -/
theorem c7_witness :
    ((⟨5, true, [1, 2, 3], 7, true⟩ : LinearDataStructure Nat)._elements.length ≤ 255) ∧
    ((2 : Nat) ≤ 255) ∧
    ((⟨5, true, [1, 2, 3], 7, true⟩ : LinearDataStructure Nat).setMaxSize 0 =
        ⟨0, true, [1, 2, 3], 7, true⟩ ∧
      (0 < 2 → (⟨5, true, [1, 2, 3], 7, true⟩ : LinearDataStructure Nat).setMaxSize 2 =
        ⟨2, true, [1, 2], 8, true⟩) ∧
      LinearDataStructure.setMaxSize
          (⟨0, true, [1, 2, 3, 4], 0, false⟩ : LinearDataStructure Nat) 2
        = ⟨2, true, [1, 2], 0, false⟩ ∧
      (⟨2, true, [1, 2], 0, false⟩ : LinearDataStructure Nat).isFull = true) :=
  ⟨by norm_num, by norm_num, by
    have h := c7_setMaxSize_behaviour (⟨5, true, [1, 2, 3], 7, true⟩ : LinearDataStructure Nat) 2
      (by norm_num) (by norm_num)
    refine ⟨h.1, ?_, h.2.2.1, h.2.2.2⟩
    intro h2
    rw [h.2.1 h2]
    rfl⟩

theorem extendLoop_appends [DecidableEq T] :
    ∀ (l : List T) (s : LinearDataStructure T),
      s._allowDuplicates = true →
      (s._maxSize = 0 ∨ s._elements.length + l.length ≤ s._maxSize) →
      s._elements.length + l.length ≤ 255 →
      LinearDataStructure.extendLoop s l =
        { s with _elements := s._elements ++ l,
                 _notified := s._notified + (if s._hasCallback then l.length else 0) } := by
  intro l
  induction l with
  | nil =>
      rintro ⟨m0, d0, l0, n0, c0⟩ _ _ _
      show LinearDataStructure.extendLoop ⟨m0, d0, l0, n0, c0⟩ [] = _
      rw [LinearDataStructure.extendLoop]
      simp

  | cons e rest ih =>
      rintro ⟨m0, d0, l0, n0, c0⟩ hdup hcap hlen
      replace hdup : d0 = true := hdup
      replace hcap : m0 = 0 ∨ l0.length + (rest.length + 1) ≤ m0 := by
        simpa using hcap
      replace hlen : l0.length + (rest.length + 1) ≤ 255 := by
        simpa using hlen
      subst hdup
      have hfull : (⟨m0, true, l0, n0, c0⟩ : LinearDataStructure T).isFull = false := by
        unfold LinearDataStructure.isFull
        by_cases hm0 : m0 = 0
        · simp [hm0]
        · rcases hcap with h | h
          · exact absurd h hm0
          · have hne : l0.length ≠ m0 := by omega
            simp [hm0, hne]
      have hins := LinearDataStructure.insert_ok
        (⟨m0, true, l0, n0, c0⟩ : LinearDataStructure T) l0.length e hfull
        (Or.inl rfl) (le_refl _)
      have hsize : (⟨m0, true, l0, n0, c0⟩ : LinearDataStructure T).size = l0.length :=
        Nat.mod_eq_of_lt (show l0.length < 256 by omega)
      rw [LinearDataStructure.extendLoop]
      rw [hsize, hins]
      show LinearDataStructure.extendLoop
        ⟨m0, true, l0.insertIdx l0.length e, n0 + (if c0 then 1 else 0), c0⟩ rest = _
      rw [List.insertIdx_length_self]
      rw [ih ⟨m0, true, l0 ++ [e], n0 + (if c0 then 1 else 0), c0⟩ rfl
        (by
          rcases hcap with h | h
          · exact Or.inl h
          · refine Or.inr ?_
            simp only [List.length_append, List.length_singleton]
            omega)
        (by
          simp only [List.length_append, List.length_singleton]
          omega)]
      simp only [LinearDataStructure.mk.injEq, List.append_assoc, List.singleton_append,
        List.length_cons, true_and, and_true]
      cases c0 <;> simp <;> omega

/-- Claim C5 counterexample: with duplicates disallowed, `extend` can return
true without appending everything — destination `[1]` (allowDuplicates
false), source `[1]`: the capacity guard passes, the one insertion is
silently rejected as a duplicate, yet `extend` still reports success with the
destination left at `[1]`, not `[1,1]`. -/
theorem c5_counterexample :
    (LinearDataStructure.extend (⟨0, false, [1], 0, false⟩ : LinearDataStructure Nat)
        ⟨0, true, [1], 0, false⟩).1 = true ∧
    (LinearDataStructure.extend (⟨0, false, [1], 0, false⟩ : LinearDataStructure Nat)
        ⟨0, true, [1], 0, false⟩).2._elements ≠
      (⟨0, false, [1], 0, false⟩ : LinearDataStructure Nat)._elements ++
        (⟨0, true, [1], 0, false⟩ : LinearDataStructure Nat)._elements := by
  decide

/-- Claim C5 as amended: if a non-zero capacity would be exceeded by
`count + other.size()`, `extend` fails with no effect at all; otherwise it
returns true after attempting the appends one by one via `insert` (which may
silently skip duplicate-rejected elements), and when `allowDuplicates` is
true this appends all of `other`'s elements in order, notifying once per
appended element if a callback is set. -/
theorem c5_extend_characterisation [DecidableEq T] (s o : LinearDataStructure T)
    (hlen : s._elements.length + o._elements.length ≤ 255) :
    (0 < s._maxSize → s._maxSize < s._elements.length + o._elements.length →
      s.extend o = (false, s)) ∧
    ((0 < s._maxSize → s._elements.length + o._elements.length ≤ s._maxSize) →
      (s.extend o).1 = true) ∧
    (s._allowDuplicates = true →
      (s._maxSize = 0 ∨ s._elements.length + o._elements.length ≤ s._maxSize) →
      s.extend o = (true,
        { s with _elements := s._elements ++ o._elements,
                 _notified := s._notified +
                   (if s._hasCallback then o._elements.length else 0) })) := by
  have hosize : o.size = o._elements.length := Nat.mod_eq_of_lt (by omega)
  have htake : o._elements.take o.size = o._elements := by
    rw [hosize]
    exact List.take_length o._elements
  refine ⟨?_, ?_, ?_⟩
  · intro h1 h2
    unfold LinearDataStructure.extend
    rw [if_pos ⟨h1, by rw [hosize]; exact h2⟩]
  · intro hcap
    unfold LinearDataStructure.extend
    split
    · rename_i hcond
      rw [hosize] at hcond
      exfalso
      have := hcap hcond.1
      omega
    · rfl
  · intro hdup hcap
    unfold LinearDataStructure.extend
    rw [if_neg (by
      rw [hosize]
      rcases hcap with h | h
      · simp [h]
      · intro hcon
        omega)]
    rw [htake]
    rw [extendLoop_appends o._elements s hdup hcap hlen]

/-- Witness for C5 at a concrete pair of containers. -/
theorem c5_witness :
    ((⟨5, true, [1], 3, true⟩ : LinearDataStructure Nat)._elements.length +
        (⟨0, true, [2, 3], 0, false⟩ : LinearDataStructure Nat)._elements.length ≤ 255) ∧
    ((0 < (5 : Nat) → (5 : Nat) < 1 + 2 →
        LinearDataStructure.extend (⟨5, true, [1], 3, true⟩ : LinearDataStructure Nat)
          ⟨0, true, [2, 3], 0, false⟩ = (false, ⟨5, true, [1], 3, true⟩)) ∧
      ((0 < (5 : Nat) → 1 + 2 ≤ (5 : Nat)) →
        (LinearDataStructure.extend (⟨5, true, [1], 3, true⟩ : LinearDataStructure Nat)
          ⟨0, true, [2, 3], 0, false⟩).1 = true) ∧
      ((true : Bool) = true → ((5 : Nat) = 0 ∨ 1 + 2 ≤ (5 : Nat)) →
        LinearDataStructure.extend (⟨5, true, [1], 3, true⟩ : LinearDataStructure Nat)
          ⟨0, true, [2, 3], 0, false⟩ = (true, ⟨5, true, [1, 2, 3], 5, true⟩))) := by
  refine ⟨by norm_num, ?_⟩
  have h := c5_extend_characterisation (⟨5, true, [1], 3, true⟩ : LinearDataStructure Nat)
    ⟨0, true, [2, 3], 0, false⟩ (by norm_num)
  exact h

theorem get_zero_head? (s : LinearDataStructure T) : s.get 0 = s._elements.head? := by
  obtain ⟨m, d, l, n, c⟩ := s
  cases l with
  | nil => rfl
  | cons a t =>
      unfold LinearDataStructure.get
      rw [dif_pos (show 0 < (a :: t).length by simp)]
      rfl

theorem stack_index_get (s : LinearDataStructure T) (hlen : s._elements.length ≤ 255) :
    s.get ((s.size + 255) % 256) = s._elements.getLast? := by
  obtain ⟨m, d, l, n, c⟩ := s
  replace hlen : l.length ≤ 255 := hlen
  cases l with
  | nil => rfl
  | cons a t =>
      simp only [List.length_cons] at hlen
      have h1 : ((a :: t).length % 256 + 255) % 256 = (a :: t).length - 1 := by
        simp only [List.length_cons]
        have hlt : (t.length + 1) % 256 = t.length + 1 := Nat.mod_eq_of_lt (by omega)
        rw [hlt]
        have h2 : t.length + 1 + 255 = 256 + t.length := by omega
        rw [h2, Nat.add_mod_left, Nat.add_sub_cancel]
        exact Nat.mod_eq_of_lt (by omega)
      show LinearDataStructure.get ⟨m, d, a :: t, n, c⟩
        (((a :: t).length % 256 + 255) % 256) = _
      rw [h1]
      unfold LinearDataStructure.get
      rw [dif_pos (show (a :: t).length - 1 < (a :: t).length by
        simp only [List.length_cons]; omega)]
      rw [List.getLast?_eq_getElem?]
      rw [List.getElem?_eq_getElem (show (a :: t).length - 1 < (a :: t).length by
        simp only [List.length_cons]; omega)]

/-- Case analysis for an `_insert` at index `size()` (the append shared by
`List::append`, `Queue::add` and `Stack::add`): a reported success appended
the element at the end, a reported failure changed nothing. -/
theorem insert_at_end_cases [DecidableEq T] (s : LinearDataStructure T) (e : T)
    {p : Bool × LinearDataStructure T}
    (hlen : s._elements.length ≤ 255)
    (hp : s._insert s.size e = some p) :
    (p.1 = true → p.2._elements = s._elements ++ [e]) ∧
    (p.1 = false → p.2 = s) := by
  have hsize : s.size = s._elements.length := Nat.mod_eq_of_lt (by omega)
  rw [hsize] at hp
  unfold LinearDataStructure._insert at hp
  split at hp
  · have hps := Option.some.inj hp
    refine ⟨fun ht => ?_, fun _ => ?_⟩
    · rw [← hps] at ht
      simp at ht
    · rw [← hps]
  · split at hp
    · have hps := Option.some.inj hp
      refine ⟨fun ht => ?_, fun _ => ?_⟩
      · rw [← hps] at ht
        simp at ht
      · rw [← hps]
    · split at hp
      · simp at hp
      · dsimp only at hp
        split at hp
        · rename_i hcon
          rw [List.length_insertIdx _ _ (le_refl _)] at hcon
          have := Nat.mod_le s._elements.length 256
          omega
        · have hps := Option.some.inj hp
          refine ⟨fun _ => ?_, fun hf => ?_⟩
          · rw [← hps]
            show ({ s with _elements :=
              s._elements.insertIdx s._elements.length e })._executeCallback._elements = _
            rw [LinearDataStructure.executeCallback_elements]
            exact List.insertIdx_length_self s._elements e
          · rw [← hps] at hf
            simp at hf

theorem stack_index_cons (a : T) (t : List T) (hlen : t.length + 1 ≤ 255) :
    (((a :: t).length % 256) + 255) % 256 = t.length := by
  simp only [List.length_cons]
  have hlt : (t.length + 1) % 256 = t.length + 1 := Nat.mod_eq_of_lt (by omega)
  rw [hlt]
  have h2 : t.length + 1 + 255 = 256 + t.length := by omega
  rw [h2, Nat.add_mod_left]
  exact Nat.mod_eq_of_lt (by omega)

theorem queue_pop_char (s : LinearDataStructure T) (hlen : s._elements.length ≤ 255) :
    (QueueC.pop s).1 = !s._elements.isEmpty ∧
    (QueueC.pop s).2._elements = s._elements.tail := by
  obtain ⟨m, d, l, n, c⟩ := s
  replace hlen : l.length ≤ 255 := hlen
  cases l with
  | nil => exact ⟨rfl, rfl⟩
  | cons a t =>
      show ((⟨m, d, a :: t, n, c⟩ : LinearDataStructure T)._remove 0).1 = _ ∧
        ((⟨m, d, a :: t, n, c⟩ : LinearDataStructure T)._remove 0).2._elements = _
      rw [LinearDataStructure.remove_ok _ 0 hlen (by simp)]
      exact ⟨by simp, rfl⟩

theorem stack_pop_char (s : LinearDataStructure T) (hlen : s._elements.length ≤ 255) :
    (StackC.pop s).1 = !s._elements.isEmpty ∧
    (StackC.pop s).2._elements = s._elements.dropLast := by
  obtain ⟨m, d, l, n, c⟩ := s
  replace hlen : l.length ≤ 255 := hlen
  cases l with
  | nil => exact ⟨rfl, rfl⟩
  | cons a t =>
      show ((⟨m, d, a :: t, n, c⟩ : LinearDataStructure T)._remove
          ((((a :: t).length % 256) + 255) % 256)).1 = _ ∧
        ((⟨m, d, a :: t, n, c⟩ : LinearDataStructure T)._remove
          ((((a :: t).length % 256) + 255) % 256)).2._elements = _
      rw [stack_index_cons a t (by simpa using hlen)]
      rw [LinearDataStructure.remove_ok _ t.length hlen (by simp)]
      refine ⟨by simp, ?_⟩
      show (a :: t).eraseIdx t.length = (a :: t).dropLast
      exact (List.dropLast_eq_eraseIdx (by simp)).symm

/-- Claim C9: Queue is FIFO and Stack is LIFO over the shared engine:
`add` appends at the end for both (and a failed `add` changes nothing);
Queue `peek`/`pop` read/remove index 0, Stack `peek`/`pop` read/remove index
`count-1`; and after `add(1); add(2); pop()` on a fresh container a Queue's
`peek` returns 2 while a Stack's returns 1. -/
theorem c9_queue_fifo_stack_lifo [DecidableEq T] (s : LinearDataStructure T) (e : T)
    (p q : Bool × LinearDataStructure T)
    (hlen : s._elements.length ≤ 255)
    (hp : QueueC.add s e = some p)
    (hq : StackC.add s e = some q) :
    (p.1 = true → p.2._elements = s._elements ++ [e]) ∧
    (p.1 = false → p.2 = s) ∧
    (q.1 = true → q.2._elements = s._elements ++ [e]) ∧
    (q.1 = false → q.2 = s) ∧
    QueueC.peek s = s._elements.head? ∧
    (QueueC.pop s).1 = !s._elements.isEmpty ∧
    (QueueC.pop s).2._elements = s._elements.tail ∧
    StackC.peek s = s._elements.getLast? ∧
    (StackC.pop s).1 = !s._elements.isEmpty ∧
    (StackC.pop s).2._elements = s._elements.dropLast ∧
    (QueueC.add (LinearDataStructure.initial Nat) 1 =
        some (true, ⟨0, true, [1], 0, false⟩) ∧
      QueueC.add (⟨0, true, [1], 0, false⟩ : LinearDataStructure Nat) 2 =
        some (true, ⟨0, true, [1, 2], 0, false⟩) ∧
      QueueC.pop (⟨0, true, [1, 2], 0, false⟩ : LinearDataStructure Nat) =
        (true, ⟨0, true, [2], 0, false⟩) ∧
      QueueC.peek (⟨0, true, [2], 0, false⟩ : LinearDataStructure Nat) = some 2 ∧
      StackC.add (LinearDataStructure.initial Nat) 1 =
        some (true, ⟨0, true, [1], 0, false⟩) ∧
      StackC.add (⟨0, true, [1], 0, false⟩ : LinearDataStructure Nat) 2 =
        some (true, ⟨0, true, [1, 2], 0, false⟩) ∧
      StackC.pop (⟨0, true, [1, 2], 0, false⟩ : LinearDataStructure Nat) =
        (true, ⟨0, true, [1], 0, false⟩) ∧
      StackC.peek (⟨0, true, [1], 0, false⟩ : LinearDataStructure Nat) = some 1) := by
  have hpc := insert_at_end_cases s e hlen hp
  have hqc := insert_at_end_cases s e hlen hq
  refine ⟨hpc.1, hpc.2, hqc.1, hqc.2, get_zero_head? s, (queue_pop_char s hlen).1,
    (queue_pop_char s hlen).2, stack_index_get s hlen, (stack_pop_char s hlen).1,
    (stack_pop_char s hlen).2, ?_⟩
  exact ⟨rfl, rfl, by decide, rfl, rfl, rfl, by decide, rfl⟩

/-- Witness for C9 at concrete containers. -/
theorem c9_witness :
    ((⟨0, true, [10, 20], 0, false⟩ : LinearDataStructure Nat)._elements.length ≤ 255) ∧
    QueueC.add (⟨0, true, [10, 20], 0, false⟩ : LinearDataStructure Nat) 30 =
      some (true, ⟨0, true, [10, 20, 30], 0, false⟩) ∧
    StackC.add (⟨0, true, [10, 20], 0, false⟩ : LinearDataStructure Nat) 30 =
      some (true, ⟨0, true, [10, 20, 30], 0, false⟩) ∧
    (((true, (⟨0, true, [10, 20, 30], 0, false⟩ : LinearDataStructure Nat)).1 = true →
        (true, (⟨0, true, [10, 20, 30], 0, false⟩ : LinearDataStructure Nat)).2._elements =
          (⟨0, true, [10, 20], 0, false⟩ : LinearDataStructure Nat)._elements ++ [30]) ∧
      QueueC.peek (⟨0, true, [10, 20], 0, false⟩ : LinearDataStructure Nat) =
        (⟨0, true, [10, 20], 0, false⟩ : LinearDataStructure Nat)._elements.head? ∧
      StackC.peek (⟨0, true, [10, 20], 0, false⟩ : LinearDataStructure Nat) =
        (⟨0, true, [10, 20], 0, false⟩ : LinearDataStructure Nat)._elements.getLast? ∧
      QueueC.peek (⟨0, true, [2], 0, false⟩ : LinearDataStructure Nat) = some 2 ∧
      StackC.peek (⟨0, true, [1], 0, false⟩ : LinearDataStructure Nat) = some 1) := by
  have h := c9_queue_fifo_stack_lifo (⟨0, true, [10, 20], 0, false⟩ : LinearDataStructure Nat)
    30 (true, ⟨0, true, [10, 20, 30], 0, false⟩) (true, ⟨0, true, [10, 20, 30], 0, false⟩)
    (by norm_num) rfl rfl
  exact ⟨by norm_num, rfl, rfl, h.1, h.2.2.2.2.1, h.2.2.2.2.2.2.2.1,
    h.2.2.2.2.2.2.2.2.2.2.2.2.2.1, h.2.2.2.2.2.2.2.2.2.2.2.2.2.2.2.2.2⟩


theorem executeCallback_notified (s : LinearDataStructure T) :
    s._executeCallback._notified = s._notified + (if s._hasCallback then 1 else 0) := by
  unfold LinearDataStructure._executeCallback
  split <;> rename_i h <;> simp [h]

theorem insert_notified [DecidableEq T] (s : LinearDataStructure T) (i : Nat) (e : T)
    {p : Bool × LinearDataStructure T}
    (hcb : s._hasCallback = true)
    (hp : s._insert i e = some p) :
    p.2._notified = s._notified + (if p.1 then 1 else 0) := by
  unfold LinearDataStructure._insert at hp
  split at hp
  · rw [← Option.some.inj hp]
    simp
  · split at hp
    · rw [← Option.some.inj hp]
      simp
    · split at hp
      · simp at hp
      · dsimp only at hp
        split at hp
        · rename_i hle hcon
          rw [List.length_insertIdx _ _ (by omega)] at hcon
          have := Nat.mod_le s._elements.length 256
          omega
        · rw [← Option.some.inj hp]
          have hcb2 : ({ s with _elements := s._elements.insertIdx i e } :
              LinearDataStructure T)._hasCallback = true := hcb
          simp [LinearDataStructure._executeCallback, hcb2, hcb]

theorem remove_notified (s : LinearDataStructure T) (i : Nat)
    (hcb : s._hasCallback = true)
    (hlen : s._elements.length ≤ 255) :
    (s._remove i).2._notified = s._notified + (if (s._remove i).1 then 1 else 0) := by
  by_cases hi : i < s._elements.length
  · rw [LinearDataStructure.remove_ok s i hlen hi]
    simp [hcb]
  · rw [LinearDataStructure.remove_oob s i (by omega)]
    simp

theorem clear_spec (s : LinearDataStructure T) (hlen : s._elements.length ≤ 255) :
    s.clear = (true, { s with
      _elements := [],
      _notified := s._notified +
        (if s._elements.isEmpty then 0 else (if s._hasCallback then 1 else 0)) }) := by
  obtain ⟨m, d, l, n, c⟩ := s
  replace hlen : l.length ≤ 255 := hlen
  cases l with
  | nil => rfl
  | cons a t =>
      have hmod : (a :: t).length % 256 = t.length + 1 := by
        rw [List.length_cons]
        exact Nat.mod_eq_of_lt (by simp only [List.length_cons] at hlen; omega)
      unfold LinearDataStructure.clear
      dsimp only
      rw [hmod]
      simp [LinearDataStructure.isEmpty, LinearDataStructure._executeCallback]
      cases c <;> simp

theorem sort_notified [LinearOrder T] (s : LinearDataStructure T) (fuel : Nat)
    {r : Bool × LinearDataStructure T}
    (hlen : s._elements.length ≤ 255) (hr : ListC.sort fuel s = some r) :
    r.1 = true ∧
    r.2._notified = s._notified +
      (if 2 ≤ s._elements.length then (if s._hasCallback then 1 else 0) else 0) := by
  have hsize : s.size = s._elements.length := Nat.mod_eq_of_lt (by omega)
  unfold ListC.sort at hr
  rw [hsize] at hr
  split at hr
  · rename_i hsmall
    rw [← Option.some.inj hr]
    refine ⟨rfl, ?_⟩
    rw [if_neg (by omega)]
    simp
  · rename_i hbig
    rcases hmatch : ListC.sortWidthAux fuel 1 s._elements.length s._elements with _ | ys
    · rw [hmatch] at hr
      simp at hr
    · rw [hmatch] at hr
      dsimp only at hr
      rw [← Option.some.inj hr]
      refine ⟨rfl, ?_⟩
      show ({ s with _elements := ys } : LinearDataStructure T)._executeCallback._notified = _
      rw [executeCallback_notified]
      rw [if_pos (show 2 ≤ s._elements.length by omega)]

/-- Claim C3 counterexample: a sort of a container with fewer than two
elements returns true (a successful sort) yet never invokes the notifier,
even though one is set — the notifier count stays 0. -/
theorem c3_counterexample :
    ListC.sort 1 (⟨0, true, ([] : List Nat), 0, true⟩ : LinearDataStructure Nat) =
      some (true, ⟨0, true, ([] : List Nat), 0, true⟩) := by
  rfl

/-- Claim C3 as amended: with a notifier set, the notifier fires exactly once
for each successful insert, each successful remove, each successful sort of a
container with at least two elements, and each clear of a non-empty
container; it never fires for an operation that returns false, for a clear of
an already-empty container, or for the no-op sort of a container with fewer
than two elements (which still returns true). -/
theorem c3_notifier_exactly_once [DecidableEq T] [LinearOrder T]
    (s : LinearDataStructure T) (i : Nat) (e : T) (fuel : Nat)
    (p r : Bool × LinearDataStructure T)
    (hcb : s._hasCallback = true)
    (hlen : s._elements.length ≤ 255)
    (hp : ListC.insert s i e = some p)
    (hr : ListC.sort fuel s = some r) :
    p.2._notified = s._notified + (if p.1 then 1 else 0) ∧
    (ListC.remove s i).2._notified =
      s._notified + (if (ListC.remove s i).1 then 1 else 0) ∧
    (LinearDataStructure.clear s).1 = true ∧
    (LinearDataStructure.clear s).2._notified =
      s._notified + (if s._elements.isEmpty then 0 else 1) ∧
    r.1 = true ∧
    r.2._notified = s._notified + (if 2 ≤ s._elements.length then 1 else 0) := by
  have hsort := sort_notified s fuel hlen hr
  refine ⟨insert_notified s i e hcb hp, remove_notified s i hcb hlen, ?_, ?_, hsort.1, ?_⟩
  · rw [clear_spec s hlen]
  · rw [clear_spec s hlen]
    simp [hcb]
  · rw [hsort.2, hcb]
    simp

/-- Witness for C3 at a concrete container with a notifier set. -/
theorem c3_witness :
    ((⟨0, true, [2, 1], 0, true⟩ : LinearDataStructure Nat)._hasCallback = true) ∧
    ((⟨0, true, [2, 1], 0, true⟩ : LinearDataStructure Nat)._elements.length ≤ 255) ∧
    ListC.insert (⟨0, true, [2, 1], 0, true⟩ : LinearDataStructure Nat) 0 5 =
      some (true, ⟨0, true, [5, 2, 1], 1, true⟩) ∧
    ListC.sort 8 (⟨0, true, [2, 1], 0, true⟩ : LinearDataStructure Nat) =
      some (true, ⟨0, true, [1, 2], 1, true⟩) ∧
    ((true, (⟨0, true, [5, 2, 1], 1, true⟩ : LinearDataStructure Nat)).2._notified =
        (⟨0, true, [2, 1], 0, true⟩ : LinearDataStructure Nat)._notified +
          (if (true, (⟨0, true, [5, 2, 1], 1, true⟩ : LinearDataStructure Nat)).1
            then 1 else 0) ∧
      (ListC.remove (⟨0, true, [2, 1], 0, true⟩ : LinearDataStructure Nat) 0).2._notified =
        (⟨0, true, [2, 1], 0, true⟩ : LinearDataStructure Nat)._notified +
          (if (ListC.remove (⟨0, true, [2, 1], 0, true⟩ : LinearDataStructure Nat) 0).1
            then 1 else 0) ∧
      (LinearDataStructure.clear
          (⟨0, true, [2, 1], 0, true⟩ : LinearDataStructure Nat)).1 = true ∧
      (LinearDataStructure.clear
          (⟨0, true, [2, 1], 0, true⟩ : LinearDataStructure Nat)).2._notified =
        (⟨0, true, [2, 1], 0, true⟩ : LinearDataStructure Nat)._notified +
          (if (⟨0, true, [2, 1], 0, true⟩ :
            LinearDataStructure Nat)._elements.isEmpty then 0 else 1) ∧
      (true, (⟨0, true, [1, 2], 1, true⟩ : LinearDataStructure Nat)).1 = true ∧
      (true, (⟨0, true, [1, 2], 1, true⟩ : LinearDataStructure Nat)).2._notified =
        (⟨0, true, [2, 1], 0, true⟩ : LinearDataStructure Nat)._notified +
          (if 2 ≤ (⟨0, true, [2, 1], 0, true⟩ :
            LinearDataStructure Nat)._elements.length then 1 else 0)) :=
  ⟨rfl, by norm_num, rfl, rfl,
    c3_notifier_exactly_once (⟨0, true, [2, 1], 0, true⟩ : LinearDataStructure Nat) 0 5 8
      (true, ⟨0, true, [5, 2, 1], 1, true⟩) (true, ⟨0, true, [1, 2], 1, true⟩)
      rfl (by norm_num) rfl rfl⟩

theorem insertIdx_nodup (a : T) (n : Nat) (l : List T) (hn : n ≤ l.length)
    (ha : a ∉ l) (hl : l.Nodup) : (l.insertIdx n a).Nodup :=
  ((LinearDataStructure.insertIdx_perm a n l hn).nodup_iff).mpr (List.nodup_cons.mpr ⟨ha, hl⟩)

theorem mergeRunsAux_perm [LinearOrder T] :
    ∀ (fuel : Nat) (a b : List T), List.Perm (ListC.mergeRunsAux fuel a b) (a ++ b) := by
  intro fuel
  induction fuel with
  | zero => intro a b; exact List.Perm.refl _
  | succ f ih =>
      intro a b
      cases a with
      | nil => simp [ListC.mergeRunsAux]
      | cons x xs =>
          cases b with
          | nil => simp [ListC.mergeRunsAux]
          | cons y ys =>
              rw [ListC.mergeRunsAux]
              split
              · exact (ih xs (y :: ys)).cons x
              · exact ((ih (x :: xs) ys).cons y).trans List.perm_middle.symm

theorem mergeRuns_perm [LinearOrder T] (a b : List T) :
    List.Perm (ListC.mergeRuns a b) (a ++ b) :=
  mergeRunsAux_perm (a.length + b.length) a b

theorem length_mergeRuns [LinearOrder T] (a b : List T) :
    (ListC.mergeRuns a b).length = a.length + b.length := by
  have := (mergeRuns_perm a b).length_eq
  simpa using this

theorem mergeAt_perm [LinearOrder T] (xs : List T) (left mid right : Nat)
    (h1 : left ≤ mid) (h2 : mid ≤ right) (h3 : right ≤ xs.length) :
    List.Perm (ListC.mergeAt xs left mid right) xs := by
  unfold ListC.mergeAt ListC.slice
  dsimp only
  have hlb : (ListC.mergeRuns ((xs.drop left).take (mid - left))
      ((xs.drop mid).take (right - mid))).length = right - left := by
    rw [length_mergeRuns]
    rw [List.length_take, List.length_take, List.length_drop, List.length_drop]
    omega
  rw [hlb, show left + (right - left) = right by omega]
  have hb := mergeRuns_perm ((xs.drop left).take (mid - left))
    ((xs.drop mid).take (right - mid))
  have hstep := List.Perm.append_right (xs.drop right)
    (List.Perm.append_left (xs.take left) hb)
  refine hstep.trans ?_
  have heq : xs.take left ++ ((xs.drop left).take (mid - left) ++
      (xs.drop mid).take (right - mid)) ++ xs.drop right = xs := by
    have e1 : xs.take left ++ (xs.drop left).take (mid - left) = xs.take mid := by
      rw [← List.take_add, show left + (mid - left) = mid by omega]
    have e2 : xs.take mid ++ (xs.drop mid).take (right - mid) = xs.take right := by
      rw [← List.take_add, show mid + (right - mid) = right by omega]
    calc xs.take left ++ ((xs.drop left).take (mid - left) ++
          (xs.drop mid).take (right - mid)) ++ xs.drop right
        = (xs.take left ++ (xs.drop left).take (mid - left) ++
            (xs.drop mid).take (right - mid)) ++ xs.drop right := by
          simp [List.append_assoc]
      _ = (xs.take right) ++ xs.drop right := by rw [List.append_assoc, e1, ← List.append_assoc, e2]
      _ = xs := List.take_append_drop right xs
  rw [heq]

theorem sortPassAux_perm [LinearOrder T] :
    ∀ (fuel w left size : Nat) (xs ys : List T), size ≤ xs.length →
      ListC.sortPassAux fuel w left size xs = some ys → List.Perm ys xs := by
  intro fuel
  induction fuel with
  | zero =>
      intro w left size xs ys _ h
      simp [ListC.sortPassAux] at h
  | succ f ih =>
      intro w left size xs ys hsize h
      rw [ListC.sortPassAux] at h
      split at h
      · rename_i hlt
        have hperm := mergeAt_perm xs left (min (left + w) size) (min (left + 2 * w) size)
          (by omega) (by omega) (by omega)
        have hlen2 : size ≤ (ListC.mergeAt xs left (min (left + w) size)
            (min (left + 2 * w) size)).length := by
          rw [hperm.length_eq]
          exact hsize
        exact (ih w ((left + 2 * w) % 256) size _ ys hlen2 h).trans hperm
      · rw [← Option.some.inj h]

theorem sortWidthAux_perm [LinearOrder T] :
    ∀ (fuel w size : Nat) (xs ys : List T), size ≤ xs.length →
      ListC.sortWidthAux fuel w size xs = some ys → List.Perm ys xs := by
  intro fuel
  induction fuel with
  | zero =>
      intro w size xs ys _ h
      simp [ListC.sortWidthAux] at h
  | succ f ih =>
      intro w size xs ys hsize h
      rw [ListC.sortWidthAux] at h
      split at h
      · rcases hp : ListC.sortPassAux f w 0 size xs with _ | zs
        · rw [hp] at h
          simp at h
        · rw [hp] at h
          dsimp only at h
          have h1 := sortPassAux_perm f w 0 size xs zs hsize hp
          have h2 := ih ((2 * w) % 256) size zs ys (by rw [h1.length_eq]; exact hsize) h
          exact h2.trans h1
      · rw [← Option.some.inj h]

theorem remove_snd_length (s : LinearDataStructure T) (i : Nat)
    (hi : i < s._elements.length) :
    ((s._remove i)).2._elements.length = s._elements.length - 1 := by
  have he := List.length_eraseIdx_add_one hi
  unfold LinearDataStructure._remove
  rw [if_neg (by omega)]
  dsimp only
  split
  · simp only
    omega
  · unfold LinearDataStructure._executeCallback
    split <;> simp only <;> omega

theorem remove_state (s : LinearDataStructure T) (i : Nat) :
    ((s._remove i)).2._maxSize = s._maxSize ∧
    ((s._remove i)).2._allowDuplicates = s._allowDuplicates ∧
    List.Sublist ((s._remove i)).2._elements s._elements := by
  unfold LinearDataStructure._remove
  split
  · exact ⟨rfl, rfl, List.Sublist.refl _⟩
  · dsimp only
    split
    · exact ⟨rfl, rfl, List.eraseIdx_sublist _ _⟩
    · rw [LinearDataStructure.executeCallback_maxSize,
        LinearDataStructure.executeCallback_allowDuplicates,
        LinearDataStructure.executeCallback_elements]
      exact ⟨rfl, rfl, List.eraseIdx_sublist _ _⟩

theorem inv_insert [DecidableEq T] {s s' : LinearDataStructure T} {i : Nat} {e : T}
    {b : Bool} (h : s._insert i e = some (b, s')) (hs : ContainerInv s) :
    ContainerInv s' := by
  unfold LinearDataStructure._insert at h
  split at h
  · injection Option.some.inj h with hb hs'
    rw [← hs']
    exact hs
  · split at h
    · injection Option.some.inj h with hb hs'
      rw [← hs']
      exact hs
    · split at h
      · simp at h
      · rename_i hfull hdup hle
        dsimp only at h
        split at h
        · rename_i hcon
          rw [List.length_insertIdx _ _ (by omega)] at hcon
          have := Nat.mod_le s._elements.length 256
          omega
        · injection Option.some.inj h with hb hs'
          rw [← hs']
          constructor
          · intro hmax
            rw [LinearDataStructure.executeCallback_maxSize] at hmax
            rw [LinearDataStructure.executeCallback_elements,
              LinearDataStructure.executeCallback_maxSize]
            show (s._elements.insertIdx i e).length ≤ s._maxSize
            rw [List.length_insertIdx _ _ (by omega)]
            replace hmax : s._maxSize ≠ 0 := hmax
            have h1 := hs.1 hmax
            unfold LinearDataStructure.isFull at hfull
            rw [if_neg hmax] at hfull
            simp only [beq_iff_eq] at hfull
            have : s._elements.length ≠ s._maxSize := by
              intro hc
              exact hfull (by simp [hc])
            omega
          · intro hdd
            rw [LinearDataStructure.executeCallback_allowDuplicates] at hdd
            rw [LinearDataStructure.executeCallback_elements]
            show (s._elements.insertIdx i e).Nodup
            replace hdd : s._allowDuplicates = false := hdd
            have hmem : e ∉ s._elements := by
              intro hc
              apply hdup
              simp [hdd, LinearDataStructure.existsElem, hc]
            exact insertIdx_nodup e i s._elements (by omega) hmem (hs.2 hdd)

theorem inv_remove {s : LinearDataStructure T} (i : Nat) (hs : ContainerInv s) :
    ContainerInv ((s._remove i)).2 := by
  obtain ⟨hm, hd, hsub⟩ := remove_state s i
  constructor
  · intro h
    rw [hm] at h
    rw [hm]
    exact Nat.le_trans hsub.length_le (hs.1 h)
  · intro h
    rw [hd] at h
    exact List.Nodup.sublist hsub (hs.2 h)

theorem inv_clear {s : LinearDataStructure T} : ContainerInv ((s.clear).2) := by
  unfold LinearDataStructure.clear
  dsimp only
  split
  · exact ⟨fun _ => Nat.zero_le _, fun _ => List.nodup_nil⟩
  · split
    · exact ⟨fun _ => Nat.zero_le _, fun _ => List.nodup_nil⟩
    · unfold LinearDataStructure._executeCallback
      split <;> exact ⟨fun _ => Nat.zero_le _, fun _ => List.nodup_nil⟩

theorem evictTail_fields (s : LinearDataStructure T) :
    (LinearDataStructure.evictTail s)._maxSize = s._maxSize ∧
    (LinearDataStructure.evictTail s)._allowDuplicates = s._allowDuplicates ∧
    List.Sublist (LinearDataStructure.evictTail s)._elements s._elements ∧
    (0 < s._maxSize → (LinearDataStructure.evictTail s)._elements.length ≤ s._maxSize) := by
  suffices h : ∀ (n : Nat) (s : LinearDataStructure T), s._elements.length = n →
      (LinearDataStructure.evictTail s)._maxSize = s._maxSize ∧
      (LinearDataStructure.evictTail s)._allowDuplicates = s._allowDuplicates ∧
      List.Sublist (LinearDataStructure.evictTail s)._elements s._elements ∧
      (0 < s._maxSize → (LinearDataStructure.evictTail s)._elements.length ≤ s._maxSize)
    from h _ s rfl
  intro n
  induction n using Nat.strong_induction_on with
  | _ n ih =>
      intro s hn
      by_cases hgt : s._maxSize < s._elements.length
      · have hidx : (s._elements.length - 1) % 256 < s._elements.length := by
          have := Nat.mod_le (s._elements.length - 1) 256
          omega
        have hlen2 := remove_snd_length s _ hidx
        obtain ⟨hm, hd, hsub⟩ := remove_state s ((s._elements.length - 1) % 256)
        rw [LinearDataStructure.evictTail, dif_pos hgt]
        obtain ⟨im, idd, isub, ilen⟩ :=
          ih (n - 1) (by omega) ((s._remove ((s._elements.length - 1) % 256))).2
            (by omega)
        refine ⟨by rw [im, hm], by rw [idd, hd], isub.trans hsub, ?_⟩
        intro hpos
        have hfin := ilen (by rw [hm]; omega)
        rw [hm] at hfin
        exact hfin
      · rw [LinearDataStructure.evictTail, dif_neg hgt]
        exact ⟨rfl, rfl, List.Sublist.refl _, fun _ => by omega⟩

theorem inv_setMaxSize {s : LinearDataStructure T} (m : Nat) (hs : ContainerInv s) :
    ContainerInv (s.setMaxSize m) := by
  unfold LinearDataStructure.setMaxSize
  dsimp only
  split
  · rename_i h0
    replace h0 : m = 0 := h0
    exact ⟨fun hc => absurd h0 hc, hs.2⟩
  · rename_i h0
    replace h0 : ¬ m = 0 := h0
    obtain ⟨hm, hd, hsub, hlen⟩ :=
      evictTail_fields ({ s with _maxSize := m } : LinearDataStructure T)
    constructor
    · intro _
      rw [hm]
      exact hlen (by show 0 < m; omega)
    · intro hdd
      rw [hd] at hdd
      exact List.Nodup.sublist hsub (hs.2 hdd)

theorem inv_setAllowDuplicates [DecidableEq T] {s : LinearDataStructure T} (b : Bool)
    (hs : ContainerInv s) : ContainerInv (s.setAllowDuplicates b) := by
  unfold LinearDataStructure.setAllowDuplicates
  dsimp only
  split
  · constructor
    · intro hmax
      replace hmax : s._maxSize ≠ 0 := hmax
      show (LinearDataStructure._removeDuplicates s._elements).length ≤ s._maxSize
      rw [removeDuplicates_eq_dedupFirst]
      exact Nat.le_trans (dedupFirst_sublist s._elements).length_le (hs.1 hmax)
    · intro _
      show (LinearDataStructure._removeDuplicates s._elements).Nodup
      rw [removeDuplicates_eq_dedupFirst]
      exact dedupFirst_nodup _
  · rename_i hb
    replace hb : ¬ (!b) = true := hb
    constructor
    · intro hmax
      exact hs.1 hmax
    · intro hdd
      replace hdd : b = false := hdd
      simp [hdd] at hb

theorem inv_extendLoop [DecidableEq T] :
    ∀ (l : List T) (s : LinearDataStructure T), ContainerInv s →
      ContainerInv (LinearDataStructure.extendLoop s l) := by
  intro l
  induction l with
  | nil =>
      intro s hs
      rw [LinearDataStructure.extendLoop]
      exact hs
  | cons e rest ih =>
      intro s hs
      rw [LinearDataStructure.extendLoop]
      split
      · rename_i b s1 heq
        exact ih s1 (inv_insert heq hs)
      · exact ih s hs

theorem inv_extend [DecidableEq T] {s : LinearDataStructure T}
    (o : LinearDataStructure T) (hs : ContainerInv s) :
    ContainerInv ((s.extend o)).2 := by
  unfold LinearDataStructure.extend
  split
  · exact hs
  · exact inv_extendLoop _ s hs

theorem inv_copy [DecidableEq T] {s : LinearDataStructure T}
    (o : LinearDataStructure T) (hs : ContainerInv s) :
    ContainerInv ((s.copy o)).2 := by
  unfold LinearDataStructure.copy
  split
  · exact hs
  · exact inv_extendLoop _ _ inv_clear

theorem inv_sort [LinearOrder T] {s s' : LinearDataStructure T} {b : Bool} (fuel : Nat)
    (h : ListC.sort fuel s = some (b, s')) (hs : ContainerInv s) : ContainerInv s' := by
  unfold ListC.sort at h
  split at h
  · injection Option.some.inj h with hb hs'
    rw [← hs']
    exact hs
  · rcases hm : ListC.sortWidthAux fuel 1 s.size s._elements with _ | ys
    · rw [hm] at h
      simp at h
    · rw [hm] at h
      dsimp only at h
      injection Option.some.inj h with hb hs'
      rw [← hs']
      have hperm := sortWidthAux_perm fuel 1 s.size s._elements ys (Nat.mod_le _ _) hm
      constructor
      · intro hmax
        rw [LinearDataStructure.executeCallback_maxSize] at hmax
        rw [LinearDataStructure.executeCallback_maxSize,
          LinearDataStructure.executeCallback_elements]
        show ys.length ≤ s._maxSize
        rw [hperm.length_eq]
        exact hs.1 hmax
      · intro hdd
        rw [LinearDataStructure.executeCallback_allowDuplicates] at hdd
        rw [LinearDataStructure.executeCallback_elements]
        show ys.Nodup
        exact (hperm.nodup_iff).mpr (hs.2 hdd)

theorem reverseLoop_spec (s : LinearDataStructure T) :
    ∀ (i : Nat) (acc : List T), i ≤ s._elements.length →
      ListC.reverseLoop s i acc = acc ++ (s._elements.take i).reverse := by
  intro i
  induction i with
  | zero =>
      intro acc _
      simp [ListC.reverseLoop]
  | succ i ih =>
      intro acc hi
      have hlt : i < s._elements.length := by omega
      rw [ListC.reverseLoop]
      have hget : s.get i = some (s._elements[i]) := dif_pos hlt
      rw [hget]
      show ListC.reverseLoop s i (acc ++ [s._elements[i]]) = _
      rw [ih (acc ++ [s._elements[i]]) (by omega)]
      rw [List.take_succ, List.getElem?_eq_getElem hlt]
      simp only [Option.toList_some, List.reverse_append, List.reverse_cons,
        List.reverse_nil, List.nil_append, List.append_assoc, List.singleton_append]

theorem inv_reverse {s : LinearDataStructure T} (hs : ContainerInv s) :
    ContainerInv ((ListC.reverse s)).2 := by
  unfold ListC.reverse
  split
  · exact hs
  · dsimp only
    have hspec := reverseLoop_spec s s.size [] (Nat.mod_le _ _)
    constructor
    · intro hmax
      replace hmax : s._maxSize ≠ 0 := hmax
      show (ListC.reverseLoop s s.size []).length ≤ s._maxSize
      rw [hspec]
      simp only [List.nil_append, List.length_reverse, List.length_take]
      have := hs.1 hmax
      omega
    · intro hdd
      replace hdd : s._allowDuplicates = false := hdd
      show (ListC.reverseLoop s s.size []).Nodup
      rw [hspec]
      simp only [List.nil_append]
      exact List.nodup_reverse.mpr (List.Nodup.sublist (List.take_sublist _ _) (hs.2 hdd))

/-- Claim C1: every container state reachable from a fresh instance through
the public operations satisfies the data-model invariants — a non-zero
capacity bounds the element count, and with duplicates disallowed the stored
elements are pairwise distinct; every public operation preserves this
(reads like `get`/`peek` do not change the state at all). -/
theorem c1_reachable_invariant [DecidableEq T] [LinearOrder T]
    {s : LinearDataStructure T} (h : Reachable s) : ContainerInv s := by
  induction h with
  | init => exact ⟨fun _ => Nat.zero_le _, fun _ => List.nodup_nil⟩
  | insertOp i e hr hins ih => exact inv_insert hins ih
  | removeOp i hr ih => exact inv_remove _ ih
  | clearOp hr ih => exact inv_clear
  | setMaxSizeOp m hr ih => exact inv_setMaxSize _ ih
  | setAllowDuplicatesOp b hr ih => exact inv_setAllowDuplicates b ih
  | extendOp o hr ih => exact inv_extend o ih
  | copyOp o hr ih => exact inv_copy o ih
  | sortOp fuel hr hsort ih => exact inv_sort fuel hsort ih
  | reverseOp hr ih => exact inv_reverse ih
  | queueAddOp e hr hins ih => exact inv_insert hins ih
  | queuePopOp hr ih => exact inv_remove _ ih
  | stackAddOp e hr hins ih => exact inv_insert hins ih
  | stackPopOp hr ih => exact inv_remove _ ih
  | setCallbackOp hr ih => exact ⟨ih.1, ih.2⟩
  | clearCallbackOp hr ih => exact ⟨ih.1, ih.2⟩

/-- Witness for C1: the invariant holds at the state reached by inserting 5
into a fresh container. -/
theorem c1_witness : ContainerInv (⟨0, true, [5], 0, false⟩ : LinearDataStructure Nat) :=
  c1_reachable_invariant (Reachable.insertOp 0 5 Reachable.init rfl)
